import Mathlib

/-!
Shallow embedding of `src/multiply_shift.rs` (the `HornerHasher` streaming
multiply-shift hash), together with theorems settling the frozen claims
about it.  Machine integers (`u64`) are modelled as `Nat` with explicit
reduction modulo `2^64` at every wrapping operation; the 32-byte buffer
`accum : [u64; 4]`, which the source manipulates through a byte-pointer
view, is modelled as a list of 32 bytes read little-endian (the source is
x86_64-specific), and the four result lanes as a four-field structure.
-/

namespace MultiplyShift

/-- Reduction modulo `2^64`: the effect of `u64` wrapping arithmetic. -/
def wrap (x : Nat) : Nat := x % 2^64

/-- `hi64mul` from the source: the 64 most significant bits of the 128-bit
product of two 64-bit words (the `mulq` inline assembly). -/
def hi64mul (x y : Nat) : Nat := (x * y) / 2^64

/-- `mult_hi128` from the source:
`*result = result.wrapping_add(accum.wrapping_mul(h1).wrapping_add(hi64mul(accum, h0)))`.
Returns the new value of `result`. -/
def mult_hi128 (result accum h0 h1 : Nat) : Nat :=
  wrap (result + wrap (wrap (accum * h1) + hi64mul accum h0))

/-- Little-endian value of a list of bytes (first byte least significant). -/
def le64 (bs : List Nat) : Nat := bs.foldr (fun b acc => b + 256 * acc) 0

/-- `load_u64` from the source: load a `u64` from 8 consecutive bytes of a
byte stream at offset `i` (little-endian, via `copy_nonoverlapping`). -/
def load_u64 (buf : List Nat) (i : Nat) : Nat := le64 ((buf.drop i).take 8)

/-- The four result lanes `result : [u64; 4]` of `HornerHasher`. -/
structure Lanes where
  l0 : Nat
  l1 : Nat
  l2 : Nat
  l3 : Nat
deriving DecidableEq, Repr

/-- The `HornerHasher` state: seeds `h0`/`h1`, result lanes, the 32-byte
buffer `accum` (byte view of `[u64; 4]`), and the byte count. -/
structure HornerHasher where
  h0 : Nat
  h1 : Nat
  result : Lanes
  accum : List Nat
  count : Nat
deriving DecidableEq, Repr

/-- The 32 zero bytes that `accum` is reset to after a flush. -/
def zeros32 : List Nat := List.replicate 32 0

/-- A freshly constructed `HornerHasher` with the given seed pair
(zero lanes, zero buffer, zero count), as built by `Default::default`
modulo the seed constants. -/
def mkHorner (h0 h1 : Nat) : HornerHasher :=
  ⟨h0, h1, ⟨0, 0, 0, 0⟩, zeros32, 0⟩

/-- `HornerHasher::default()`: the default seed constants from the source. -/
def hornerDefault : HornerHasher := mkHorner 4167967182414233411 15315631059493996859

/-- Byte-level `copy_nonoverlapping`: overwrite `src.length` bytes of `dest`
starting at byte offset `off`. -/
def copyBytes (dest : List Nat) (off : Nat) (src : List Nat) : List Nat :=
  dest.take off ++ src ++ dest.drop (off + src.length)

/-- Fuelled version of the hot loop of `HornerHasher::write`
(`while i + 31 < bytes.len()`): each iteration folds four words loaded at
offsets `i, i+8, i+16, i+24` into the four lanes and advances `i` by 32.
The fuel only bounds the recursion; `hotLoop` supplies enough of it. -/
def hotLoopF : Nat → Lanes → List Nat → Nat → Nat → Nat → Lanes × Nat
  | 0, r, _, i, _, _ => (r, i)
  | f+1, r, bytes, i, h0, h1 =>
    if i + 31 < bytes.length then
      hotLoopF f ⟨mult_hi128 r.l0 (load_u64 bytes i) h0 h1,
                  mult_hi128 r.l1 (load_u64 bytes (i+8)) h0 h1,
                  mult_hi128 r.l2 (load_u64 bytes (i+16)) h0 h1,
                  mult_hi128 r.l3 (load_u64 bytes (i+24)) h0 h1⟩ bytes (i+32) h0 h1
    else (r, i)

/-- The hot loop of `HornerHasher::write`, returning the final lanes and the
final value of the cursor `i`.  `bytes.length - i` iterations are always
enough fuel, since the loop body requires `i + 31 < bytes.length` and
advances `i` by 32. -/
def hotLoop (r : Lanes) (bytes : List Nat) (i h0 h1 : Nat) : Lanes × Nat :=
  hotLoopF (bytes.length - i) r bytes i h0 h1

/-- The `if 0 == self.count & 31` block of `HornerHasher::write`: given the
buffer after the initial fill and the (already fully advanced) count, either
directly load the four buffered words into the lanes (`32 == count`), fold
them into the lanes, or leave the state alone; a taken flush zeroes the
buffer.  Returns the lanes and the buffer the rest of `write` works with. -/
def flushStep (s : HornerHasher) (accum1 : List Nat) (count2 : Nat) : Lanes × List Nat :=
  if count2 % 32 = 0 then
    if count2 = 32 then
      (⟨load_u64 accum1 0, load_u64 accum1 8, load_u64 accum1 16, load_u64 accum1 24⟩,
       zeros32)
    else
      (⟨mult_hi128 s.result.l0 (load_u64 accum1 0) s.h0 s.h1,
        mult_hi128 s.result.l1 (load_u64 accum1 8) s.h0 s.h1,
        mult_hi128 s.result.l2 (load_u64 accum1 16) s.h0 s.h1,
        mult_hi128 s.result.l3 (load_u64 accum1 24) s.h0 s.h1⟩, zeros32)
  else (s.result, accum1)

/-- `HornerHasher::write` from the source, line by line:
fill `accum` from the input at byte offset `count & 31` with
`n = min(32 - (count & 31), bytes.len())` bytes; advance `count` by `n` and
then by the rest of the slice length; if the *final* count is a multiple of
32, fold (or, when `count == 32`, directly load) the buffered words into the
lanes and zero the buffer (`flushStep`); run the hot loop from cursor `n`;
copy the tail into the buffer at offset 0. -/
def write (s : HornerHasher) (bytes : List Nat) : HornerHasher :=
  let off := s.count % 32
  let n := min (32 - off) bytes.length
  let accum1 := copyBytes s.accum off (bytes.take n)
  let count1 := wrap (s.count + n)
  let count2 := wrap (count1 + (bytes.length - n))
  let flushed := flushStep s accum1 count2
  let looped := hotLoop flushed.1 bytes n s.h0 s.h1
  let accum3 := copyBytes flushed.2 0 (bytes.drop looped.2)
  ⟨s.h0, s.h1, looped.1, accum3, count2⟩

/-- The `u64` read `self.accum[j]` of the source: little-endian word `j` of
the 32-byte buffer. -/
def accumWord (s : HornerHasher) (j : Nat) : Nat := load_u64 s.accum (8*j)

/-- `HornerHasher::finish` from the source, embedded with explicit state
threading (the method takes `&self`: every mutation in its body targets a
local, so the returned state is the receiver re-assembled unchanged).
The general (`count >= 32`) branch unrolls the source's
`while i < ((count & 31) + 7) / 8` loop over the four lanes; note that the
source's `result[2]` combination is computed but never reaches the returned
`result[0]`, and that `result[1]` (`f1 = tmp1`) is mixed in twice. -/
def finishSt (s : HornerHasher) : Nat × HornerHasher :=
  let d :=
    if s.count ≤ 8 then
      mult_hi128 (accumWord s 0) s.count s.h0 s.h1
    else if s.count ≤ 16 then
      mult_hi128 (mult_hi128 (accumWord s 0) (accumWord s 1) s.h0 s.h1) s.count s.h0 s.h1
    else if s.count ≤ 24 then
      let t1 := mult_hi128 (accumWord s 0) (accumWord s 2) s.h0 s.h1
      let t2 := mult_hi128 (accumWord s 1) s.count s.h0 s.h1
      mult_hi128 t1 t2 s.h0 s.h1
    else if s.count < 32 then
      let t1 := mult_hi128 (accumWord s 0) (accumWord s 2) s.h0 s.h1
      let t2 := mult_hi128 (accumWord s 1) (accumWord s 3) s.h0 s.h1
      let t1b := mult_hi128 t1 s.count s.h0 s.h1
      mult_hi128 t1b t2 s.h0 s.h1
    else
      let b := ((s.count % 32) + 7) / 8
      let q0 := if 0 < b then mult_hi128 s.result.l0 (accumWord s 0) s.h0 s.h1 else s.result.l0
      let q1 := if 1 < b then mult_hi128 s.result.l1 (accumWord s 1) s.h0 s.h1 else s.result.l1
      let q2 := if 2 < b then mult_hi128 s.result.l2 (accumWord s 2) s.h0 s.h1 else s.result.l2
      let q3 := if 3 < b then mult_hi128 s.result.l3 (accumWord s 3) s.h0 s.h1 else s.result.l3
      let r0a := mult_hi128 q0 q1 s.h0 s.h1
      let _r2a := mult_hi128 q2 q3 s.h0 s.h1
      let r0b := mult_hi128 r0a s.count s.h0 s.h1
      let r0c := mult_hi128 r0b q1 s.h0 s.h1
      r0c
  (d, ⟨s.h0, s.h1, s.result, s.accum, s.count⟩)

/-- `HornerHasher::finish` as a plain function: the digest component of the
state-threaded embedding. -/
def finish (s : HornerHasher) : Nat := (finishSt s).1

/-- A 33-byte input used as a concrete probe: one complete 32-byte block
followed by one extra byte. -/
def exampleB33 : List Nat :=
  [1, 2, 3, 4, 5, 6, 7, 8, 9, 10, 11, 12, 13, 14, 15, 16,
   17, 18, 19, 20, 21, 22, 23, 24, 25, 26, 27, 28, 29, 30, 31, 32, 33]

/-! ### Helper lemmas -/

theorem le64_replicate_zero : ∀ k, le64 (List.replicate k 0) = 0 := by
  intro k
  induction k with
  | zero => rfl
  | succ k ih => simpa [le64, List.replicate_succ] using ih

theorem load_u64_zeros32 (i : Nat) : load_u64 zeros32 i = 0 := by
  unfold load_u64 zeros32
  rw [List.drop_replicate, List.take_replicate, le64_replicate_zero]

theorem mix_zero_zero (h0 h1 : Nat) : mult_hi128 0 0 h0 h1 = 0 := by
  simp [mult_hi128, wrap, hi64mul]

theorem finish_fresh_eq_zero (h0 h1 : Nat) : finish (mkHorner h0 h1) = 0 := by
  simp [finish, finishSt, mkHorner, accumWord, load_u64_zeros32, mix_zero_zero]

/-! ### Claims -/

/-- Claim C2 (confirmed): the mixing primitive satisfies
`mult_hi128(result, word, h0, h1) = (result + word * h1 + high64(word * h0)) mod 2^64`,
with `high64(a*b)` the upper 64 bits of the exact 128-bit product, for all
accumulator, word and seed values. -/
theorem C2_mult_hi128_formula (r w h0 h1 : Nat) :
    mult_hi128 r w h0 h1 = (r + w * h1 + (w * h0) / 2^64) % 2^64 := by
  unfold mult_hi128 wrap hi64mul
  generalize w * h1 = a
  generalize w * h0 / 2^64 = b
  omega

/-- Claim C8, counterexample: mixing a word into a zero accumulator is not
the identity on the word — for the default (odd) seed pair from the source,
`mult_hi128(0, 1, h0, h1) = h1 ≠ 1`. -/
theorem C8_mix_zero_not_identity :
    4167967182414233411 % 2 = 1 ∧
    mult_hi128 0 1 4167967182414233411 15315631059493996859 ≠ 1 := by
  decide

/-- Claim C8, amended: mixing with a zero accumulator is not the identity;
instead `mult_hi128(0, w, h0, h1) = (w * h1 + high64(w * h0)) mod 2^64` for
every word and seed pair, so the `32 == count` direct initialization of the
lanes is not equivalent to folding into zero accumulators whenever that
value differs from `w`. -/
theorem C8_mix_zero_formula (w h0 h1 : Nat) :
    mult_hi128 0 w h0 h1 = (w * h1 + (w * h0) / 2^64) % 2^64 := by
  unfold mult_hi128 wrap hi64mul
  generalize w * h1 = a
  generalize w * h0 / 2^64 = b
  omega

/-- Claim C3, counterexample: there is no seed pair (valid or otherwise) for
which the empty-input digest is nonzero — `finish` on a freshly constructed
state returns 0 for every seed, refuting seed-dependence. -/
theorem C3_no_seed_gives_nonzero_empty_digest :
    ¬ ∃ h0 h1 : Nat,
        h0 % 2 = 1 ∧ h0 < 2^64 ∧ h1 < 2^64 ∧ finish (mkHorner h0 h1) ≠ 0 := by
  rintro ⟨h0, h1, -, -, -, hne⟩
  exact hne (finish_fresh_eq_zero h0 h1)

/-- Claim C3, amended: a zero-length input produces a well-defined digest —
`finish` on a freshly constructed state terminates and returns a value — but
that value is the constant 0 for every seed pair, not seed-dependent. -/
theorem C3_empty_digest_constant_zero (h0 h1 : Nat) :
    finish (mkHorner h0 h1) = 0 :=
  finish_fresh_eq_zero h0 h1

/-- Claim C9 (confirmed): mixing a zero word is the identity on the
accumulator (`0 * h1 = 0` and the high 64 bits of `0 * h0` are 0), and
consequently ingesting an empty slice into a freshly constructed state —
which runs the buffer-full fold over the all-zero buffer — leaves the state
unchanged. -/
theorem C9_mix_zero_word (acc h0 h1 : Nat) (hacc : acc < 2^64) :
    mult_hi128 acc 0 h0 h1 = acc ∧
    write (mkHorner h0 h1) [] = mkHorner h0 h1 := by
  constructor
  · simp only [mult_hi128, wrap, hi64mul]
    simp
    omega
  · simp [write, mkHorner, copyBytes, hotLoop, hotLoopF, flushStep,
          wrap, load_u64_zeros32, mix_zero_zero]

/-- Witness for C9 at a concrete accumulator and seed pair. -/
theorem C9_mix_zero_word_witness :
    5 < 2^64 ∧ mult_hi128 5 0 3 7 = 5 :=
  ⟨by decide, (C9_mix_zero_word 5 3 7 (by decide)).1⟩

/-- Claim C7 (confirmed): `finish` is read-only and pure — the state-threaded
embedding returns the receiver unchanged, and a second call on the returned
state yields the identical digest; the digest is a function of the state
alone. -/
theorem C7_finish_pure (s : HornerHasher) :
    finishSt s = (finish s, s) ∧ (finishSt (finishSt s).2).1 = (finishSt s).1 := by
  obtain ⟨h0, h1, r, a, c⟩ := s
  exact ⟨rfl, rfl⟩

/-- Claim C1 (code_bug): chunk-size independence fails — hashing the same
33 bytes as one `write` call versus as a 32-byte call followed by a 1-byte
call yields different digests under the default seed, because the
buffer-flush test `0 == count & 31` runs after `count` was already advanced
by the whole slice length. -/
theorem C1_chunking_changes_digest :
    finish (write hornerDefault exampleB33) ≠
      finish (write (write hornerDefault (exampleB33.take 32)) (exampleB33.drop 32)) := by
  decide

/-- Claim C4 (code_bug): after a single 33-byte `write` from a fresh default
state the lanes are still all zero, although one complete 32-byte block was
ingested whose fold is nonzero under either reading (raw first word, or that
word mixed into a zero accumulator). -/
theorem C4_completed_block_not_folded :
    (write hornerDefault exampleB33).result = ⟨0, 0, 0, 0⟩ ∧
    load_u64 exampleB33 0 ≠ 0 ∧
    mult_hi128 0 (load_u64 exampleB33 0) 4167967182414233411 15315631059493996859 ≠ 0 := by
  decide

/-! ### Claim C5: where the count is mixed in -/

/-- A 32-byte buffer content used to probe the finalization branches. -/
def c5accum : List Nat :=
  [1, 2, 3, 4, 5, 6, 7, 8, 9, 10, 11, 12, 13, 14, 15, 16,
   17, 18, 19, 20, 21, 22, 23, 24, 25, 26, 27, 28, 29, 30, 31, 32]

/-- A reachable-shaped state in the `count ≤ 24` size class with `count = 17`. -/
def c5s17 : HornerHasher :=
  ⟨4167967182414233411, 15315631059493996859, ⟨0, 0, 0, 0⟩, c5accum, 17⟩

/-- The same state as `c5s17` except `count = 24` (same size class). -/
def c5s24 : HornerHasher :=
  ⟨4167967182414233411, 15315631059493996859, ⟨0, 0, 0, 0⟩, c5accum, 24⟩

/-- Claim C5, counterexample: in the `count ≤ 24` branch the digest does not
have the form `mult_hi128 A count h0 h1` for any `A` computed from the
count-independent part of the state: two states identical except for their
counts (both in that branch) admit no common such `A`. -/
theorem C5_count_not_last_mix :
    ¬ ∃ A : Nat,
        finish c5s17 = mult_hi128 A c5s17.count c5s17.h0 c5s17.h1 ∧
        finish c5s24 = mult_hi128 A c5s24.count c5s24.h0 c5s24.h1 := by
  rintro ⟨A, e1, e2⟩
  have d1 : finish c5s17 = 14364554347505739790 := by decide
  have d2 : finish c5s24 = 13053187187642183824 := by decide
  rw [d1] at e1
  rw [d2] at e2
  simp only [c5s17, c5s24] at e1 e2
  unfold mult_hi128 wrap hi64mul at e1 e2
  norm_num at e1 e2
  omega

/-- The first lane's partial-word fold in the general (`count >= 32`) branch
of `finish`: lane 0 of the source's `while i < ((count & 31) + 7) / 8` loop. -/
def foldQ0 (s : HornerHasher) : Nat :=
  if 0 < (s.count % 32 + 7) / 8 then
    mult_hi128 s.result.l0 (accumWord s 0) s.h0 s.h1
  else s.result.l0

/-- The second lane's partial-word fold in the general (`count >= 32`)
branch of `finish`. -/
def foldQ1 (s : HornerHasher) : Nat :=
  if 1 < (s.count % 32 + 7) / 8 then
    mult_hi128 s.result.l1 (accumWord s 1) s.h0 s.h1
  else s.result.l1

/-- Claim C5, amended: the total byte count is mixed into the digest in
every size-class branch of `finish`, but it is the last mixing step only in
the `count ≤ 8` and `count ≤ 16` branches; in the `17..24`, `25..31` and
`count ≥ 32` branches exactly one further `mult_hi128` follows the count mix
(with the lane-1 side value as the incoming word). -/
theorem C5_count_mixed_every_branch (s t u v w : HornerHasher)
    (hs : s.count ≤ 8)
    (ht1 : 8 < t.count) (ht2 : t.count ≤ 16)
    (hu1 : 16 < u.count) (hu2 : u.count ≤ 24)
    (hv1 : 24 < v.count) (hv2 : v.count < 32)
    (hw : 32 ≤ w.count) :
    finish s = mult_hi128 (accumWord s 0) s.count s.h0 s.h1 ∧
    finish t = mult_hi128 (mult_hi128 (accumWord t 0) (accumWord t 1) t.h0 t.h1)
                 t.count t.h0 t.h1 ∧
    finish u = mult_hi128 (mult_hi128 (accumWord u 0) (accumWord u 2) u.h0 u.h1)
                 (mult_hi128 (accumWord u 1) u.count u.h0 u.h1) u.h0 u.h1 ∧
    finish v = mult_hi128
                 (mult_hi128 (mult_hi128 (accumWord v 0) (accumWord v 2) v.h0 v.h1)
                   v.count v.h0 v.h1)
                 (mult_hi128 (accumWord v 1) (accumWord v 3) v.h0 v.h1) v.h0 v.h1 ∧
    finish w = mult_hi128
                 (mult_hi128 (mult_hi128 (foldQ0 w) (foldQ1 w) w.h0 w.h1)
                   w.count w.h0 w.h1)
                 (foldQ1 w) w.h0 w.h1 := by
  refine ⟨?_, ?_, ?_, ?_, ?_⟩
  · simp only [finish, finishSt]
    rw [if_pos hs]
  · simp only [finish, finishSt]
    rw [if_neg (by omega), if_pos ht2]
  · simp only [finish, finishSt]
    rw [if_neg (by omega), if_neg (by omega), if_pos hu2]
  · simp only [finish, finishSt]
    rw [if_neg (by omega), if_neg (by omega), if_neg (by omega), if_pos hv2]
  · simp only [finish, finishSt, foldQ0, foldQ1]
    rw [if_neg (by omega), if_neg (by omega), if_neg (by omega), if_neg (by omega)]

/-- Witness for C5 (amended) at concrete states, one per size class. -/
theorem C5_count_mixed_every_branch_witness :
    16 < c5s17.count ∧ c5s17.count ≤ 24 ∧
    finish c5s17 = mult_hi128
      (mult_hi128 (accumWord c5s17 0) (accumWord c5s17 2) c5s17.h0 c5s17.h1)
      (mult_hi128 (accumWord c5s17 1) c5s17.count c5s17.h0 c5s17.h1)
      c5s17.h0 c5s17.h1 :=
  ⟨by decide, by decide,
   (C5_count_mixed_every_branch (mkHorner 3 5)
      ⟨3, 5, ⟨0, 0, 0, 0⟩, zeros32, 9⟩ c5s17
      ⟨3, 5, ⟨0, 0, 0, 0⟩, zeros32, 25⟩
      ⟨3, 5, ⟨0, 0, 0, 0⟩, zeros32, 32⟩
      (by decide) (by decide) (by decide) (by decide) (by decide)
      (by decide) (by decide) (by decide)).2.2.1⟩

/-! ### Claim C6: the count is the total ingested length -/

theorem write_count (s : HornerHasher) (bytes : List Nat) :
    (write s bytes).count = (s.count + bytes.length) % 2^64 := by
  show wrap (wrap (s.count + min (32 - s.count % 32) bytes.length) +
        (bytes.length - min (32 - s.count % 32) bytes.length)) = _
  have hn : min (32 - s.count % 32) bytes.length ≤ bytes.length :=
    Nat.min_le_right _ _
  unfold wrap
  generalize min (32 - s.count % 32) bytes.length = n at hn ⊢
  omega

theorem foldl_write_count (chunks : List (List Nat)) :
    ∀ s : HornerHasher, s.count < 2^64 →
      (List.foldl write s chunks).count = (s.count + (chunks.map List.length).sum) % 2^64 := by
  induction chunks with
  | nil =>
    intro s hs
    simpa using (Nat.mod_eq_of_lt hs).symm
  | cons c cs ih =>
    intro s hs
    simp only [List.foldl_cons, List.map_cons, List.sum_cons]
    rw [ih (write s c) (by rw [write_count]; exact Nat.mod_lt _ (by norm_num)),
        write_count]
    omega

/-- Claim C6 (confirmed): starting from a fresh state, after any sequence of
`write` calls `count` equals the sum of the lengths of all slices passed so
far (when that sum fits in a `u64`), and each single `write` advances
`count` by exactly the length of its argument (as a `u64`). -/
theorem C6_count_is_total_length (h0 h1 : Nat) (chunks : List (List Nat))
    (hsum : (chunks.map List.length).sum < 2^64)
    (s : HornerHasher) (bytes : List Nat) :
    (List.foldl write (mkHorner h0 h1) chunks).count = (chunks.map List.length).sum ∧
    (write s bytes).count = (s.count + bytes.length) % 2^64 := by
  refine ⟨?_, write_count s bytes⟩
  rw [foldl_write_count chunks (mkHorner h0 h1) (by norm_num [mkHorner])]
  have h0c : (mkHorner h0 h1).count = 0 := rfl
  rw [h0c]
  omega

/-- Witness for C6 at a concrete seed, chunk list, state and slice. -/
theorem C6_count_is_total_length_witness :
    ([[1, 2], [3]].map List.length).sum < 2^64 ∧
    ((List.foldl write (mkHorner 3 5) [[1, 2], [3]]).count
        = ([[1, 2], [3]].map List.length).sum ∧
      (write (mkHorner 3 5) [7]).count = ((mkHorner 3 5).count + [7].length) % 2^64) :=
  ⟨by decide, C6_count_is_total_length 3 5 [[1, 2], [3]] (by decide) (mkHorner 3 5) [7]⟩

/-! ### Claim C10: all raw byte accesses in `write` stay in bounds

Checked (Option-returning) variants of the raw accesses of `write`: every
`copy_nonoverlapping` and `load_u64` is guarded by the bound it relies on,
and `none` marks an out-of-bounds access. -/

/-- Checked `load_u64`: requires the 8-byte read to end within the slice. -/
def load_u64Chk (buf : List Nat) (i : Nat) : Option Nat :=
  if i + 8 ≤ buf.length then some (load_u64 buf i) else none

/-- Checked byte copy: requires the destination range to lie within `dest`. -/
def copyBytesChk (dest : List Nat) (off : Nat) (src : List Nat) : Option (List Nat) :=
  if off + src.length ≤ dest.length then some (copyBytes dest off src) else none

/-- Fuelled checked hot loop: every word load goes through `load_u64Chk`. -/
def hotLoopChkF : Nat → Lanes → List Nat → Nat → Nat → Nat → Option (Lanes × Nat)
  | 0, r, _, i, _, _ => some (r, i)
  | f+1, r, bytes, i, h0, h1 =>
    if i + 31 < bytes.length then
      match load_u64Chk bytes i, load_u64Chk bytes (i+8),
            load_u64Chk bytes (i+16), load_u64Chk bytes (i+24) with
      | some w0, some w1, some w2, some w3 =>
        hotLoopChkF f ⟨mult_hi128 r.l0 w0 h0 h1, mult_hi128 r.l1 w1 h0 h1,
                       mult_hi128 r.l2 w2 h0 h1, mult_hi128 r.l3 w3 h0 h1⟩
          bytes (i+32) h0 h1
      | _, _, _, _ => none
    else some (r, i)

/-- Checked hot loop with the same fuel policy as `hotLoop`. -/
def hotLoopChk (r : Lanes) (bytes : List Nat) (i h0 h1 : Nat) : Option (Lanes × Nat) :=
  hotLoopChkF (bytes.length - i) r bytes i h0 h1

/-- `HornerHasher::write` with every raw byte access checked: the initial
fill checks both its source range (`n ≤ bytes.len()`) and its destination
range (`(count mod 32) + n ≤ 32` bytes of `accum`), the hot loop checks each
8-byte load, and the tail copy checks its source offset and that the tail
fits in the 32-byte buffer. -/
def writeChk (s : HornerHasher) (bytes : List Nat) : Option HornerHasher :=
  let off := s.count % 32
  let n := min (32 - off) bytes.length
  if n ≤ bytes.length then
    (copyBytesChk s.accum off (bytes.take n)).bind fun accum1 =>
      let count1 := wrap (s.count + n)
      let count2 := wrap (count1 + (bytes.length - n))
      let flushed := flushStep s accum1 count2
      (hotLoopChk flushed.1 bytes n s.h0 s.h1).bind fun looped =>
        if looped.2 ≤ bytes.length then
          (copyBytesChk flushed.2 0 (bytes.drop looped.2)).map fun accum3 =>
            ⟨s.h0, s.h1, looped.1, accum3, count2⟩
        else none
  else none

theorem hotLoopChkF_eq (bytes : List Nat) (h0 h1 : Nat) :
    ∀ f r i, hotLoopChkF f r bytes i h0 h1 = some (hotLoopF f r bytes i h0 h1) := by
  intro f
  induction f with
  | zero => intro r i; rfl
  | succ f ih =>
    intro r i
    by_cases hc : i + 31 < bytes.length
    · have l0 : load_u64Chk bytes i = some (load_u64 bytes i) := by
        unfold load_u64Chk; rw [if_pos (by omega)]
      have l1 : load_u64Chk bytes (i+8) = some (load_u64 bytes (i+8)) := by
        unfold load_u64Chk; rw [if_pos (by omega)]
      have l2 : load_u64Chk bytes (i+16) = some (load_u64 bytes (i+16)) := by
        unfold load_u64Chk; rw [if_pos (by omega)]
      have l3 : load_u64Chk bytes (i+24) = some (load_u64 bytes (i+24)) := by
        unfold load_u64Chk; rw [if_pos (by omega)]
      simp only [hotLoopChkF, hotLoopF, if_pos hc, l0, l1, l2, l3]
      exact ih _ _
    · simp only [hotLoopChkF, hotLoopF, if_neg hc]

theorem hotLoopF_le (bytes : List Nat) (h0 h1 : Nat) :
    ∀ f r i, i ≤ bytes.length → (hotLoopF f r bytes i h0 h1).2 ≤ bytes.length := by
  intro f
  induction f with
  | zero => intro r i hi; exact hi
  | succ f ih =>
    intro r i hi
    by_cases hc : i + 31 < bytes.length
    · simp only [hotLoopF, if_pos hc]
      exact ih _ _ (by omega)
    · simpa only [hotLoopF, if_neg hc] using hi

theorem hotLoopF_exit (bytes : List Nat) (h0 h1 : Nat) :
    ∀ f r i, bytes.length - i ≤ f →
      ¬ ((hotLoopF f r bytes i h0 h1).2 + 31 < bytes.length) := by
  intro f
  induction f with
  | zero => intro r i hle; simp only [hotLoopF]; omega
  | succ f ih =>
    intro r i hle
    by_cases hc : i + 31 < bytes.length
    · simp only [hotLoopF, if_pos hc]
      exact ih _ _ (by omega)
    · simpa only [hotLoopF, if_neg hc] using hc

theorem copyBytes_length (dest src : List Nat) (off : Nat)
    (h : off + src.length ≤ dest.length) :
    (copyBytes dest off src).length = dest.length := by
  simp only [copyBytes, List.length_append, List.length_take, List.length_drop]
  omega

theorem flushStep_snd_length (s : HornerHasher) (accum1 : List Nat) (count2 : Nat)
    (h : accum1.length = 32) : (flushStep s accum1 count2).2.length = 32 := by
  unfold flushStep
  split
  · split
    · simp [zeros32]
    · simp [zeros32]
  · exact h

/-- After a successful initial fill, the rest of the checked `write` (hot
loop, tail-position test, tail copy) succeeds and produces exactly what the
total `write` produces, for any flushed pair whose buffer component has the
real 32-byte size. -/
theorem writeChk_tail_eq (F : Lanes × List Nat) (bytes : List Nat)
    (g0 g1 n count2 h0 h1 : Nat)
    (hF : F.2.length = 32) (hn : n ≤ bytes.length) :
    ((hotLoopChk F.1 bytes n h0 h1).bind fun looped =>
      if looped.2 ≤ bytes.length then
        (copyBytesChk F.2 0 (bytes.drop looped.2)).map fun accum3 =>
          (⟨g0, g1, looped.1, accum3, count2⟩ : HornerHasher)
      else none)
    = some ⟨g0, g1, (hotLoop F.1 bytes n h0 h1).1,
            copyBytes F.2 0 (bytes.drop ((hotLoop F.1 bytes n h0 h1).2)), count2⟩ := by
  unfold hotLoopChk hotLoop
  rw [hotLoopChkF_eq, Option.some_bind]
  rw [if_pos (hotLoopF_le bytes h0 h1 _ _ _ hn)]
  have hex : ¬ ((hotLoopF (bytes.length - n) F.1 bytes n h0 h1).2 + 31 < bytes.length) :=
    hotLoopF_exit bytes h0 h1 _ _ _ (le_refl _)
  have hcb : copyBytesChk F.2 0
      (bytes.drop ((hotLoopF (bytes.length - n) F.1 bytes n h0 h1).2))
      = some (copyBytes F.2 0
          (bytes.drop ((hotLoopF (bytes.length - n) F.1 bytes n h0 h1).2))) := by
    unfold copyBytesChk
    rw [if_pos]
    rw [List.length_drop, hF]
    omega
  rw [hcb, Option.map_some']

/-- Claim C10 (confirmed): on any state whose buffer has its real 32-byte
size, the fully checked `write` never hits an out-of-bounds branch and
agrees with the total embedding: every raw access of `HornerHasher::write`
is in bounds. -/
theorem C10_write_accesses_in_bounds (s : HornerHasher) (bytes : List Nat)
    (hacc : s.accum.length = 32) :
    writeChk s bytes = some (write s bytes) := by
  have hoff : s.count % 32 < 32 := Nat.mod_lt _ (by norm_num)
  have hnb : min (32 - s.count % 32) bytes.length ≤ bytes.length :=
    Nat.min_le_right _ _
  have hn32 : s.count % 32 + min (32 - s.count % 32) bytes.length ≤ 32 := by
    have := Nat.min_le_left (32 - s.count % 32) bytes.length
    omega
  have hacc1len : (copyBytes s.accum (s.count % 32)
      (bytes.take (min (32 - s.count % 32) bytes.length))).length = 32 := by
    rw [copyBytes_length]
    · exact hacc
    · rw [List.length_take, hacc]
      omega
  have hcb1 : copyBytesChk s.accum (s.count % 32)
      (bytes.take (min (32 - s.count % 32) bytes.length))
      = some (copyBytes s.accum (s.count % 32)
          (bytes.take (min (32 - s.count % 32) bytes.length))) := by
    unfold copyBytesChk
    rw [if_pos]
    rw [List.length_take, hacc]
    omega
  unfold writeChk write
  dsimp only
  rw [if_pos hnb, hcb1, Option.some_bind]
  exact writeChk_tail_eq _ bytes s.h0 s.h1 _ _ s.h0 s.h1
    (flushStep_snd_length _ _ _ hacc1len) hnb

/-- Witness for C10 at a concrete state and byte slice. -/
theorem C10_write_accesses_in_bounds_witness :
    (mkHorner 3 5).accum.length = 32 ∧
    writeChk (mkHorner 3 5) [1, 2, 3] = some (write (mkHorner 3 5) [1, 2, 3]) :=
  ⟨by decide, C10_write_accesses_in_bounds (mkHorner 3 5) [1, 2, 3] (by decide)⟩

end MultiplyShift
